import Mathlib

/-!
Qtum wallet GUI: sync overlay and payment-request dialog

A shallow embedding of `src/qt/modaloverlay.cpp` and
`src/qt/receiverequestdialog.cpp`, followed by theorems about it.

Modelling conventions.

* Widget objects become records; a member function becomes a function from the
  record (and its arguments) to the updated record, paired with the return value
  when the member function returns one.
* `int` and `qint64` values are `Int`. The functions embedded here never rely on
  wrap-around (signed overflow is undefined in C++), so no reduction modulo a
  power of two appears.
* In the embedding of the widget state (`tipUpdate` and its labels) `double`
  values are exact rationals (`ℚ`) and the conversion `double → qint64` is
  truncation toward zero. That embedding carries the claims about the history,
  the visibility and the sign test of the speed block, none of which depends on
  rounding.
* The arithmetic of the speed block (lines 114–131 of `tipUpdate`) is embedded a
  second time in machine arithmetic, `etaVarsD`: `Double` is IEEE 754 binary64
  with round-to-nearest-even, infinities and NaN, and an operation that C++
  leaves undefined (signed 64-bit overflow, a `double → qint64` conversion out of
  range) gives `none`. The numerical claim is settled on that embedding.
* `QDateTime` is `Option Int`: milliseconds since the epoch, `none` for an
  invalid date. `QDateTime::currentDateTime()` is passed in as `now`.
* Label texts are kept as the value that is formatted into the label.
* Everything that lives outside the two files (the header estimator, the address
  table, the request history store, URI formatting) is a field of an `Env`
  record, so every theorem holds for each behaviour of those collaborators.
-/

namespace ModalOverlay

/-- One entry of `blockProcessTime`: `QPair<qint64, double>`, the time stamp in
milliseconds and the verification progress. -/
abbrev Sample := Int × ℚ

/-- Observable actions of the overlay, in the order they happen. -/
inductive Effect
  | triggered (hide : Bool)
  | backupWallet
  | animationStart
deriving DecidableEq, Repr

/-- Text of `ui->expectedTimeLeft`. -/
inductive TimeLeftText
  | unset
  | niceTimeOffset (secs : ℚ)
  | unknown
  | unknownEllipsis
deriving DecidableEq, Repr

/-- Text of `ui->numberOfBlocksLeft`. -/
inductive BlocksLeftText
  | unset
  | number (n : Int)
  | syncingHeaders (height : Int) (percent : ℚ)
deriving DecidableEq, Repr

/-- The members of `ModalOverlay` that the embedded functions read or write. -/
structure Overlay where
  bestHeaderHeight : Int
  bestHeaderDate : Option Int
  layerIsVisible : Bool
  userClosed : Bool
  blockProcessTime : List Sample
  widgetVisible : Bool
  height : Int
  animationStartValue : Option (Int × Int)
  animationEndValue : Option (Int × Int)
  progressIncreasePerH : Option ℚ
  expectedTimeLeft : TimeLeftText
  newestBlockDate : Option (Option Int)
  percentageProgress : Option ℚ
  numberOfBlocksLeft : BlocksLeftText
  effects : List Effect
deriving DecidableEq, Repr

/-- Collaborators of the overlay that are defined elsewhere:
`GUIUtil::estimateNumberHeadersLeft` and the constant `HEADER_HEIGHT_DELTA_SYNC`. -/
structure Env where
  estimateNumberHeadersLeft : Int → Int → Int
  HEADER_HEIGHT_DELTA_SYNC : Int

/-- State built by the constructor: height 0, invalid date, hidden, not closed by
the user, no samples. -/
def Overlay.init (height : Int) : Overlay :=
  { bestHeaderHeight := 0, bestHeaderDate := none, layerIsVisible := false,
    userClosed := false, blockProcessTime := [], widgetVisible := false,
    height := height, animationStartValue := none, animationEndValue := none,
    progressIncreasePerH := none, expectedTimeLeft := TimeLeftText.unset,
    newestBlockDate := none, percentageProgress := none,
    numberOfBlocksLeft := BlocksLeftText.unset, effects := [] }

/-- The Qt function `QDateTime::secsTo`: the millisecond difference divided by 1000. -/
def secsTo (sinceMs untilMs : Int) : Int := (untilMs - sinceMs).tdiv 1000

/-- Implicit conversion `double → qint64`: truncation toward zero (the floor of a
non-negative value, the ceiling of a negative one). -/
def doubleToInt64 (x : ℚ) : Int := if 0 ≤ x then ⌊x⌋ else ⌈x⌉

/-- Embedding of `ModalOverlay::UpdateHeaderSyncLabel`. With an invalid `bestHeaderDate` the
elapsed seconds are 0, as `QDateTime::secsTo` returns for an invalid date. -/
def UpdateHeaderSyncLabel (env : Env) (now : Int) (s : Overlay) : Overlay :=
  let elapsed : Int := match s.bestHeaderDate with
    | some d => secsTo d now
    | none => 0
  let est_headers_left := env.estimateNumberHeadersLeft elapsed s.bestHeaderHeight
  let percent : ℚ :=
    100 / ((s.bestHeaderHeight + est_headers_left : Int) : ℚ) * (s.bestHeaderHeight : ℚ)
  { s with numberOfBlocksLeft := BlocksLeftText.syncingHeaders s.bestHeaderHeight percent }

/-- Embedding of `ModalOverlay::setKnownBestHeight`. -/
def setKnownBestHeight (env : Env) (now : Int) (s : Overlay) (count : Int)
    (blockDate : Option Int) : Overlay :=
  if count > s.bestHeaderHeight then
    UpdateHeaderSyncLabel env now { s with bestHeaderHeight := count, bestHeaderDate := blockDate }
  else s

/-- The constant `MAX_SAMPLES` of `tipUpdate`. -/
def MAX_SAMPLES : Nat := 5000

/-- The Qt function `QVector::remove(i, count)`: drops `count` elements starting at index `i`. -/
def vectorRemove {α : Type} (v : List α) (i count : Nat) : List α :=
  v.take i ++ v.drop (i + count)

/-- The local variables of the speed block of `tipUpdate`. -/
structure EtaVars where
  progressDelta : ℚ
  progressPerHour : ℚ
  timeDelta : Int
  remainingMSecs : Int
deriving DecidableEq, Repr

/-- Initial values of the locals (`0` each). -/
def EtaVars.zero : EtaVars :=
  { progressDelta := 0, progressPerHour := 0, timeDelta := 0, remainingMSecs := 0 }

/-- The body of the `if` inside the loop of `tipUpdate` (lines 125–128): the locals
computed from the newest sample, `blockProcessTime[0]`, and the chosen `sample`. -/
def etaBody (bpt : List Sample) (remainingProgress : ℚ) (sample : Sample) : EtaVars :=
  let progressDelta := (bpt.getD 0 (0, 0)).2 - sample.2
  let timeDelta := (bpt.getD 0 (0, 0)).1 - sample.1
  { progressDelta := progressDelta
    timeDelta := timeDelta
    progressPerHour :=
      if progressDelta > 0 then progressDelta / (timeDelta : ℚ) * 1000 * 3600 else 0
    remainingMSecs :=
      if progressDelta > 0 then
        doubleToInt64 (remainingProgress / progressDelta * (timeDelta : ℚ))
      else -1 }

/-- The `for (int i = 1; i < blockProcessTime.size(); i++)` loop of `tipUpdate`,
started at index `i` with `fuel` iterations available. `bpt` is the history with
the new sample already at index 0. -/
def etaLoop (now : Int) (bpt : List Sample) (remainingProgress : ℚ) : Nat → Nat → EtaVars
  | 0, _ => EtaVars.zero
  | fuel + 1, i =>
    if i < bpt.length then
      let sample := bpt.getD i (0, 0)
      if sample.1 < now - 500 * 1000 ∨ i = bpt.length - 1 then
        etaBody bpt remainingProgress sample
      else etaLoop now bpt remainingProgress fuel (i + 1)
    else EtaVars.zero

/-- The locals after the loop of `tipUpdate`: the loop runs from index 1 and has
at most `size` iterations. -/
def etaVars (now : Int) (bpt : List Sample) (nVerificationProgress : ℚ) : EtaVars :=
  etaLoop now bpt (1 - nVerificationProgress) bpt.length 1

/-- Lines 108–146 of `tipUpdate`: push the sample, and with two or more samples
show speed and expected time, then trim the history. -/
def tipUpdateSamples (s : Overlay) (now : Int) (nVerificationProgress : ℚ) : Overlay :=
  let bpt := (now, nVerificationProgress) :: s.blockProcessTime
  if bpt.length ≥ 2 then
    let v := etaVars now bpt nVerificationProgress
    { s with
      progressIncreasePerH := some (v.progressPerHour * 100)
      expectedTimeLeft :=
        if v.remainingMSecs ≥ 0 then TimeLeftText.niceTimeOffset ((v.remainingMSecs : ℚ) / 1000)
        else TimeLeftText.unknown
      blockProcessTime :=
        if bpt.length > MAX_SAMPLES then vectorRemove bpt MAX_SAMPLES (bpt.length - MAX_SAMPLES)
        else bpt }
  else { s with blockProcessTime := bpt }

/-- Embedding of `ModalOverlay::tipUpdate`. -/
def tipUpdate (env : Env) (now : Int) (s : Overlay) (count : Int) (blockDate : Option Int)
    (nVerificationProgress : ℚ) : Overlay :=
  let s1 := tipUpdateSamples s now nVerificationProgress
  let s2 := { s1 with newestBlockDate := some blockDate
                      percentageProgress := some (nVerificationProgress * 100) }
  match s2.bestHeaderDate with
  | none => s2
  | some d =>
    let estimateNumHeadersLeft := env.estimateNumberHeadersLeft (secsTo d now) s2.bestHeaderHeight
    let hasBestHeader : Bool := s2.bestHeaderHeight ≥ count
    if estimateNumHeadersLeft < env.HEADER_HEIGHT_DELTA_SYNC ∧ hasBestHeader = true then
      { s2 with numberOfBlocksLeft := BlocksLeftText.number (s2.bestHeaderHeight - count) }
    else
      { UpdateHeaderSyncLabel env now s2 with expectedTimeLeft := TimeLeftText.unknownEllipsis }

/-- Embedding of `ModalOverlay::showHide`. -/
def showHide (s : Overlay) (hide userRequested : Bool) : Overlay :=
  if (s.layerIsVisible && !hide) || (!s.layerIsVisible && hide)
      || (!hide && s.userClosed && !userRequested) then s
  else
    let s1 := { s with effects := s.effects ++ [Effect.triggered hide] }
    let s2 := if !s1.widgetVisible && !hide then { s1 with widgetVisible := true } else s1
    { s2 with
      animationStartValue := some (0, if hide then 0 else s2.height)
      animationEndValue := some (0, if hide then s2.height else 0)
      effects := s2.effects ++ [Effect.animationStart]
      layerIsVisible := !hide }

/-- Embedding of `ModalOverlay::toggleVisibility`. -/
def toggleVisibility (s : Overlay) : Overlay :=
  let s1 := showHide s s.layerIsVisible true
  if !s1.layerIsVisible then { s1 with userClosed := true } else s1

/-- Embedding of `ModalOverlay::closeClicked`. The call `showHide(true)` leaves the second
argument to its default, which is declared in the class header; it is the
parameter `userRequestedDefault` here. -/
def closeClicked (userRequestedDefault : Bool) (s : Overlay) : Overlay :=
  { showHide s true userRequestedDefault with userClosed := true }

/-- Embedding of `ModalOverlay::backupWalletClicked`. -/
def backupWalletClicked (s : Overlay) : Overlay :=
  showHide { s with effects := s.effects ++ [Effect.backupWallet] } true true

/-- One `tipUpdate` call: the clock reading and the three arguments. -/
structure TipCall where
  now : Int
  count : Int
  blockDate : Option Int
  nVerificationProgress : ℚ

/-- The sample a call inserts. -/
def TipCall.sample (c : TipCall) : Sample := (c.now, c.nVerificationProgress)

/-- A sequence of `tipUpdate` calls, first call first. -/
def tipUpdates (env : Env) (s : Overlay) (calls : List TipCall) : Overlay :=
  calls.foldl (fun st c => tipUpdate env c.now st c.count c.blockDate c.nVerificationProgress) s

/-! ### The speed block in binary64 machine arithmetic -/

/-- A value of the C++ type `double` (IEEE 754 binary64): a finite value, kept as
the rational it denotes, an infinity, or NaN. The two zeros are identified: the
embedded code never divides by a computed zero, the only place where their sign
would show. -/
inductive Double
  | finite (value : ℚ)
  | inf (negative : Bool)
  | nan
deriving DecidableEq, Repr

/-- The integer nearest to a non-negative rational, ties to the even one. -/
def roundHalfEven (x : ℚ) : Int :=
  let f := ⌊x⌋
  let d := x - (f : ℚ)
  if d < 1 / 2 then f else if 1 / 2 < d then f + 1 else if f % 2 = 0 then f else f + 1

/-- The position of the leading binary digit of `n`, by repeated halving (`fuel`
bounds the number of halvings): with `fuel ≥ n ≥ 1` the result `b` has
`2 ^ b ≤ n < 2 ^ (b + 1)`. -/
def bitLen : Nat → Nat → Nat
  | 0, _ => 0
  | fuel + 1, n => if 2 ≤ n then bitLen fuel (n / 2) + 1 else 0

/-- The exponent `e` with `2 ^ e ≤ a < 2 ^ (e + 1)` of a positive rational `a`,
found from the leading digits of numerator and denominator. -/
def binade (a : ℚ) : Int :=
  let k : Int := (bitLen a.num.natAbs a.num.natAbs : Int) - (bitLen a.den a.den : Int)
  if (2 : ℚ) ^ k ≤ a then k else k - 1

/-- Rounding of an exact result to binary64, to nearest with ties to even: 53
significant bits, exponent at least -1022 (below that the spacing stays
`2 ^ (-1074)`), and an infinity when the rounded magnitude reaches `2 ^ 1024`. -/
def Double.round (q : ℚ) : Double :=
  if q = 0 then Double.finite 0
  else
    let e := max (binade |q|) (-1022)
    let ulp : ℚ := (2 : ℚ) ^ (e - 52)
    let v : ℚ := (roundHalfEven (|q| / ulp) : ℚ) * ulp
    if (2 : ℚ) ^ (1024 : Int) ≤ v then Double.inf (decide (q < 0))
    else Double.finite (if q < 0 then -v else v)

/-- Conversion `qint64 → double` (and `int → double`). -/
def Double.ofInt (t : Int) : Double := Double.round (t : ℚ)

/-- The C++ `x - y` on doubles. -/
def Double.sub : Double → Double → Double
  | Double.finite a, Double.finite b => Double.round (a - b)
  | Double.finite _, Double.inf s => Double.inf (!s)
  | Double.inf s, Double.finite _ => Double.inf s
  | Double.inf s, Double.inf t => if s = t then Double.nan else Double.inf s
  | _, _ => Double.nan

/-- The C++ `x * y` on doubles. -/
def Double.mul : Double → Double → Double
  | Double.finite a, Double.finite b => Double.round (a * b)
  | Double.finite a, Double.inf s =>
    if a = 0 then Double.nan else Double.inf (xor s (decide (a < 0)))
  | Double.inf s, Double.finite b =>
    if b = 0 then Double.nan else Double.inf (xor s (decide (b < 0)))
  | Double.inf s, Double.inf t => Double.inf (xor s t)
  | _, _ => Double.nan

/-- The C++ `x / y` on doubles; a zero divisor is the positive zero. -/
def Double.div : Double → Double → Double
  | Double.finite a, Double.finite b =>
    if b = 0 then (if a = 0 then Double.nan else Double.inf (decide (a < 0)))
    else Double.round (a / b)
  | Double.finite _, Double.inf _ => Double.finite 0
  | Double.inf s, Double.finite b => Double.inf (xor s (decide (b < 0)))
  | _, _ => Double.nan

/-- The C++ test `x > 0` on a double. -/
def Double.isPos : Double → Bool
  | Double.finite a => decide (0 < a)
  | Double.inf s => !s
  | Double.nan => false

/-- Conversion `double → qint64`: truncation toward zero; `none` when the
truncated value does not fit in 64 bits (also for infinities and NaN), where C++
leaves the behaviour undefined. -/
def Double.toInt64 : Double → Option Int
  | Double.finite a =>
    let t : Int := if 0 ≤ a then ⌊a⌋ else ⌈a⌉
    if -2 ^ 63 ≤ t ∧ t < 2 ^ 63 then some t else none
  | _ => none

/-- A `qint64` result: `none` when the exact result does not fit in 64 bits, where
C++ leaves signed overflow undefined. -/
def checked64 (x : Int) : Option Int :=
  if -2 ^ 63 ≤ x ∧ x < 2 ^ 63 then some x else none

/-- One entry of `blockProcessTime` with the progress as a binary64 value. -/
abbrev SampleD := Int × Double

/-- The local variables of the speed block of `tipUpdate`, in machine arithmetic. -/
structure EtaVarsD where
  progressDelta : Double
  progressPerHour : Double
  timeDelta : Int
  remainingMSecs : Int
deriving DecidableEq, Repr

/-- Lines 125–128 of `tipUpdate` in machine arithmetic; `none` when an operation is
undefined in C++. -/
def etaBodyD (newest : SampleD) (remainingProgress : Double) (sample : SampleD) :
    Option EtaVarsD :=
  let progressDelta := Double.sub newest.2 sample.2
  match checked64 (newest.1 - sample.1) with
  | none => none
  | some timeDelta =>
    let progressPerHour :=
      if progressDelta.isPos then
        Double.mul (Double.mul (Double.div progressDelta (Double.ofInt timeDelta))
          (Double.ofInt 1000)) (Double.ofInt 3600)
      else Double.ofInt 0
    let remaining : Double :=
      if progressDelta.isPos then
        Double.mul (Double.div remainingProgress progressDelta) (Double.ofInt timeDelta)
      else Double.ofInt (-1)
    match Double.toInt64 remaining with
    | none => none
    | some remainingMSecs =>
      some { progressDelta := progressDelta, progressPerHour := progressPerHour,
             timeDelta := timeDelta, remainingMSecs := remainingMSecs }

/-- The loop of lines 120–131 of `tipUpdate` in machine arithmetic, started at
index `i` with `fuel` iterations available; `none` when an operation is undefined
in C++. Without a `break` the locals keep their initial value 0. -/
def etaLoopD (now : Int) (bpt : List SampleD) (remainingProgress : Double) :
    Nat → Nat → Option EtaVarsD
  | 0, _ => some ⟨Double.ofInt 0, Double.ofInt 0, 0, 0⟩
  | fuel + 1, i =>
    if i < bpt.length then
      match bpt[i]?, bpt[0]?, checked64 (now - 500 * 1000) with
      | some sample, some newest, some threshold =>
        if sample.1 < threshold ∨ i = bpt.length - 1 then
          etaBodyD newest remainingProgress sample
        else etaLoopD now bpt remainingProgress fuel (i + 1)
      | _, _, _ => none
    else some ⟨Double.ofInt 0, Double.ofInt 0, 0, 0⟩

/-- The locals after the loop of `tipUpdate` in machine arithmetic, for the history
`bpt` that already has the new sample at index 0. -/
def etaVarsD (now : Int) (bpt : List SampleD) (nVerificationProgress : Double) :
    Option EtaVarsD :=
  etaLoopD now bpt (Double.sub (Double.ofInt 1) nVerificationProgress) bpt.length 1

end ModalOverlay

namespace ReceiveRequestDialog

/-- Modelled from the spec: the record `SendCoinsRecipient` is declared in a header
that is not among the sources. The fields are those the dialog reads and the spec
lists for a payment request (address, label, message, amount); `amount` is a
`CAmount`, a 64-bit integer. -/
structure SendCoinsRecipient where
  address : String
  label : String
  amount : Int
  message : String
deriving DecidableEq, Repr

/-- The value `SendCoinsRecipient()`: the empty request. -/
def SendCoinsRecipient.empty : SendCoinsRecipient :=
  { address := "", label := "", amount := 0, message := "" }

/-- The wallet model as the dialog sees it: the two sub-models, either of which may
be a null pointer, and `wallet().getDefaultAddressType()`. `A` is the state of
the address table; the request history is the list of the recipients of its
rows, row 0 first. -/
structure WalletModel (A : Type) where
  addressTableModel : Option A
  recentRequestsTableModel : Option (List SendCoinsRecipient)
  defaultAddressType : Nat

/-- Collaborators of the dialog that are defined elsewhere. `addRow table label
address_type` is `AddressTableModel::addRow(Receive, label, "", address_type)`: the
new address (empty on failure) and the new table. `addNewRequest` is
`RecentRequestsTableModel::addNewRequest`. -/
structure Env (A : Type) where
  addRow : A → String → Nat → String × A
  addNewRequest : List SendCoinsRecipient → SendCoinsRecipient → List SendCoinsRecipient
  formatBitcoinURI : SendCoinsRecipient → String
  USE_QRCODE : Bool

/-- The members of `ReceiveRequestDialog` that the embedded functions read or
write; `model = none` is the null pointer. -/
structure Dialog (A : Type) where
  model : Option (WalletModel A)
  info : SendCoinsRecipient
  windowTitle : String
  qr_code : Option String
  widgetPaymentInformationEnabled : Bool
  address_content : String
  uri_content : String
  uri_toolTip : String

/-- Embedding of `ReceiveRequestDialog::refreshAddress`: the return value and the new state. -/
def refreshAddress {A : Type} (env : Env A) (s : Dialog A) : Bool × Dialog A :=
  match s.model with
  | none => (false, s)
  | some m =>
    match m.addressTableModel, m.recentRequestsTableModel with
    | some table, some requests =>
      let address_type := m.defaultAddressType
      let added := env.addRow table s.info.label address_type
      let info1 := { s.info with address := added.1 }
      let requests1 := if info1.address ≠ "" then env.addNewRequest requests info1 else requests
      (true, { s with
                info := info1
                model := some { m with addressTableModel := some added.2
                                       recentRequestsTableModel := some requests1 } })
    | _, _ => (false, s)

/-- The test of the history loop: empty label, empty message, zero amount. -/
def isDefaultEntry (entry : SendCoinsRecipient) : Bool :=
  entry.label = "" && entry.message = "" && entry.amount = 0

/-- The loop `for (int i = rowCount - 1; i >= 0; i--)` of `getDefaultAddress`. The
argument is `i + 1`; the result is the pair of `i` and `entry` at the `break`, or
`none` when the loop ends with `foundDefault` still false. -/
def defaultEntryLoop (rows : List SendCoinsRecipient) : Nat → Option (Nat × SendCoinsRecipient)
  | 0 => none
  | i + 1 =>
    match rows[i]? with
    | some entry =>
      if isDefaultEntry entry then some (i, entry) else defaultEntryLoop rows i
    | none => defaultEntryLoop rows i

/-- Embedding of `ReceiveRequestDialog::getDefaultAddress`: the return value and the new state. -/
def getDefaultAddress {A : Type} (env : Env A) (s : Dialog A) : Bool × Dialog A :=
  match s.model with
  | none => (false, s)
  | some m =>
    match m.recentRequestsTableModel with
    | none => (false, s)
    | some submodel =>
      match defaultEntryLoop submodel submodel.length with
      | some found =>
        let s1 := { s with info := found.2 }
        (decide (s1.info.address ≠ ""), s1)
      | none =>
        let s1 := (refreshAddress env { s with info := SendCoinsRecipient.empty }).2
        (decide (s1.info.address ≠ ""), s1)

mutual

/-- Embedding of `ReceiveRequestDialog::update`. The first argument bounds the depth of nested
`update`/`clear` calls; `none` means the bound was too small. The closing
`QWidget::update()` only schedules a repaint. -/
def update {A : Type} (env : Env A) : Nat → Dialog A → Option (Dialog A)
  | 0, _ => none
  | depth + 1, s =>
    let s1 := { s with windowTitle :=
      "Request payment to " ++ (if s.info.label = "" then s.info.address else s.info.label) }
    let uri := env.formatBitcoinURI s1.info
    if s1.info.address ≠ "" then
      let _info := { SendCoinsRecipient.empty with address := s1.info.address }
      some { s1 with
              qr_code := if env.USE_QRCODE then some uri else s1.qr_code
              widgetPaymentInformationEnabled := true
              address_content := s1.info.address
              uri_content := env.formatBitcoinURI _info
              uri_toolTip := uri }
    else clear env depth s1

/-- Embedding of `ReceiveRequestDialog::clear`, with the same depth bound as `update`. -/
def clear {A : Type} (env : Env A) : Nat → Dialog A → Option (Dialog A)
  | 0, _ => none
  | depth + 1, s =>
    let r := getDefaultAddress env s
    if r.1 then update env depth r.2
    else
      some { r.2 with
              windowTitle := "Request payment to "
              info := SendCoinsRecipient.empty
              qr_code := if env.USE_QRCODE then none else r.2.qr_code
              uri_content := ""
              address_content := ""
              widgetPaymentInformationEnabled := false }

end

end ReceiveRequestDialog

/-! ## Theorems: the sync overlay -/

namespace ModalOverlay

/-- The guard of `showHide` is false: the effects of the transition. -/
theorem showHide_transition (s : Overlay) (hide userRequested : Bool)
    (h : ¬ (s.layerIsVisible = !hide ∨
        (hide = false ∧ s.userClosed = true ∧ userRequested = false))) :
    (showHide s hide userRequested).effects
        = s.effects ++ [Effect.triggered hide, Effect.animationStart] ∧
      (showHide s hide userRequested).layerIsVisible = !hide ∧
      (showHide s hide userRequested).userClosed = s.userClosed := by
  rcases s with ⟨bh, bd, vis, uc, bpt, wv, ht, a1, a2, l1, l2, l3, l4, l5, eff⟩
  cases hide <;> cases userRequested <;> cases vis <;> cases uc <;> cases wv <;>
    simp_all [showHide]

/-- The guard of `showHide` is true: nothing changes. -/
theorem showHide_guard (s : Overlay) (hide userRequested : Bool)
    (h : s.layerIsVisible = !hide ∨
        (hide = false ∧ s.userClosed = true ∧ userRequested = false)) :
    showHide s hide userRequested = s := by
  rcases s with ⟨bh, bd, vis, uc, bpt, wv, ht, a1, a2, l1, l2, l3, l4, l5, eff⟩
  cases hide <;> cases userRequested <;> cases vis <;> cases uc <;>
    simp_all [showHide]

/-- C8: `showHide(hide, userRequested)` leaves the overlay as it was (no `triggered`
notification, no animation start, `layerIsVisible` and `userClosed` unchanged)
exactly when the overlay is already in the requested state or when a show is
asked for without user request after the user closed the overlay; in particular
`showHide(true)` on a hidden overlay does nothing. In every other case it emits
`triggered(hide)` once, starts the animation, sets `layerIsVisible` to `!hide`
and keeps `userClosed`. -/
theorem showHide_noop_iff (s : Overlay) (hide userRequested : Bool) :
    (showHide s hide userRequested = s ↔
      (s.layerIsVisible = !hide ∨
        (hide = false ∧ s.userClosed = true ∧ userRequested = false))) ∧
    (s.layerIsVisible = false → showHide s true userRequested = s) ∧
    (¬ (s.layerIsVisible = !hide ∨
        (hide = false ∧ s.userClosed = true ∧ userRequested = false)) →
      (showHide s hide userRequested).effects
          = s.effects ++ [Effect.triggered hide, Effect.animationStart] ∧
        (showHide s hide userRequested).layerIsVisible = !hide ∧
        (showHide s hide userRequested).userClosed = s.userClosed) := by
  refine ⟨⟨fun heq => ?_, showHide_guard s hide userRequested⟩, fun hv => ?_,
    showHide_transition s hide userRequested⟩
  · by_contra hn
    have h1 := (showHide_transition s hide userRequested hn).1
    rw [heq] at h1
    have h2 := congrArg List.length h1
    simp at h2
  · exact showHide_guard s true userRequested (Or.inl (by simp [hv]))

/-- C8 at a visible overlay asked to hide, and at a hidden one asked to hide. -/
theorem showHide_noop_iff_witness :
    (showHide { Overlay.init 600 with layerIsVisible := true } true false).effects
        = [Effect.triggered true, Effect.animationStart] ∧
      showHide (Overlay.init 600) true false = Overlay.init 600 :=
  ⟨((showHide_noop_iff { Overlay.init 600 with layerIsVisible := true } true false).2.2
      (by decide)).1,
    (showHide_noop_iff (Overlay.init 600) true false).2.1 rfl⟩

/-- C3: after `closeClicked()` the overlay is hidden and `userClosed` is set; from
there `showHide(false, false)` changes nothing (no notification, no animation),
while `showHide(false, true)` emits `triggered(false)`, starts the animation and
sets `layerIsVisible`. -/
theorem closeClicked_latch (userRequestedDefault : Bool) (s : Overlay) :
    (closeClicked userRequestedDefault s).layerIsVisible = false ∧
    (closeClicked userRequestedDefault s).userClosed = true ∧
    showHide (closeClicked userRequestedDefault s) false false
        = closeClicked userRequestedDefault s ∧
    (showHide (closeClicked userRequestedDefault s) false true).effects
        = (closeClicked userRequestedDefault s).effects
            ++ [Effect.triggered false, Effect.animationStart] ∧
    (showHide (closeClicked userRequestedDefault s) false true).layerIsVisible = true := by
  have hvis : (closeClicked userRequestedDefault s).layerIsVisible = false := by
    rcases s with ⟨bh, bd, vis, uc, bpt, wv, ht, a1, a2, l1, l2, l3, l4, l5, eff⟩
    cases userRequestedDefault <;> cases vis <;> cases uc <;> simp [closeClicked, showHide]
  have huc : (closeClicked userRequestedDefault s).userClosed = true := rfl
  refine ⟨hvis, huc, ?_, ?_, ?_⟩
  · exact showHide_guard _ false false (Or.inr ⟨rfl, huc, rfl⟩)
  · exact (showHide_transition _ false true (by simp [hvis])).1
  · simpa using (showHide_transition _ false true (by simp [hvis])).2.1

/-- C5: `setKnownBestHeight(count, date)` sets `bestHeaderHeight` to the maximum of
its old value and `count`; with `count ≤ bestHeaderHeight` the whole state is
unchanged, with `count > bestHeaderHeight` height and date become the arguments. -/
theorem setKnownBestHeight_ratchet (env : Env) (now : Int) (s : Overlay) (count : Int)
    (blockDate : Option Int) :
    (setKnownBestHeight env now s count blockDate).bestHeaderHeight
        = max s.bestHeaderHeight count ∧
    (count ≤ s.bestHeaderHeight → setKnownBestHeight env now s count blockDate = s) ∧
    (count > s.bestHeaderHeight →
      (setKnownBestHeight env now s count blockDate).bestHeaderHeight = count ∧
      (setKnownBestHeight env now s count blockDate).bestHeaderDate = blockDate) := by
  unfold setKnownBestHeight
  by_cases h : count > s.bestHeaderHeight
  · rw [if_pos h]
    refine ⟨?_, fun h2 => absurd h (not_lt.mpr h2), fun _ => ⟨rfl, rfl⟩⟩
    show count = max s.bestHeaderHeight count
    rw [max_eq_right (le_of_lt h)]
  · rw [if_neg h]
    refine ⟨?_, fun _ => rfl, fun h2 => absurd h2 h⟩
    rw [max_eq_left (not_lt.mp h)]

/-- C5 at height 10: a smaller count is ignored, a larger one is adopted. -/
theorem setKnownBestHeight_ratchet_witness :
    setKnownBestHeight ⟨fun _ _ => 0, 24⟩ 0 { Overlay.init 0 with bestHeaderHeight := 10 } 7
        (some 5) = { Overlay.init 0 with bestHeaderHeight := 10 } ∧
      (setKnownBestHeight ⟨fun _ _ => 0, 24⟩ 0 { Overlay.init 0 with bestHeaderHeight := 10 } 12
        (some 5)).bestHeaderDate = some 5 :=
  ⟨(setKnownBestHeight_ratchet ⟨fun _ _ => 0, 24⟩ 0
      { Overlay.init 0 with bestHeaderHeight := 10 } 7 (some 5)).2.1 (by decide),
    ((setKnownBestHeight_ratchet ⟨fun _ _ => 0, 24⟩ 0
      { Overlay.init 0 with bestHeaderHeight := 10 } 12 (some 5)).2.2 (by decide)).2⟩

/-- Removing everything from index `m` on keeps the first `m` elements. -/
theorem vectorRemove_tail {α : Type} (v : List α) (m : Nat) (h : m < v.length) :
    vectorRemove v m (v.length - m) = v.take m := by
  unfold vectorRemove
  have : m + (v.length - m) = v.length := by omega
  rw [this, List.drop_length, List.append_nil]

/-- The cap is at least two. -/
theorem two_le_MAX_SAMPLES : 2 ≤ MAX_SAMPLES := by decide

/-- The history after the speed block: the new sample in front, cut at the cap. -/
theorem tipUpdateSamples_history (s : Overlay) (now : Int) (p : ℚ) :
    (tipUpdateSamples s now p).blockProcessTime
      = ((now, p) :: s.blockProcessTime).take MAX_SAMPLES := by
  unfold tipUpdateSamples
  have h2 := two_le_MAX_SAMPLES
  generalize MAX_SAMPLES = m at *
  simp only []
  split
  · split
    · next h => exact vectorRemove_tail _ m h
    · next h => exact (List.take_of_length_le (not_lt.mp h)).symm
  · next h =>
    refine (List.take_of_length_le ?_).symm
    show ((now, p) :: s.blockProcessTime).length ≤ m
    omega

/-- The history after `tipUpdate`: the new sample in front, cut at the cap. -/
theorem tipUpdate_history (env : Env) (now : Int) (s : Overlay) (count : Int)
    (blockDate : Option Int) (p : ℚ) :
    (tipUpdate env now s count blockDate p).blockProcessTime
      = ((now, p) :: s.blockProcessTime).take MAX_SAMPLES := by
  rw [← tipUpdateSamples_history]
  unfold tipUpdate
  simp only []
  split
  · rfl
  · split <;> rfl

/-- Cutting the tail of a list first does not change a cut of the whole. -/
theorem take_append_take {α : Type} (m : Nat) (a b : List α) :
    (a ++ b.take m).take m = (a ++ b).take m := by
  rw [List.take_append_eq_append_take, List.take_append_eq_append_take, List.take_take]
  congr 2
  omega

/-- The history after a sequence of calls from a state within the cap. -/
theorem tipUpdates_from_state (env : Env) (calls : List TipCall) :
    ∀ s : Overlay, s.blockProcessTime.length ≤ MAX_SAMPLES →
      (tipUpdates env s calls).blockProcessTime
        = ((calls.reverse.map TipCall.sample) ++ s.blockProcessTime).take MAX_SAMPLES := by
  induction calls with
  | nil =>
    intro s hs
    simpa [tipUpdates] using hs
  | cons c cs ih =>
    intro s _
    have hlen : (tipUpdate env c.now s c.count c.blockDate
        c.nVerificationProgress).blockProcessTime.length ≤ MAX_SAMPLES := by
      rw [tipUpdate_history]
      exact List.length_take_le _ _
    have := ih (tipUpdate env c.now s c.count c.blockDate c.nVerificationProgress) hlen
    unfold tipUpdates at this ⊢
    rw [List.foldl_cons, this, tipUpdate_history, take_append_take]
    simp [TipCall.sample]

/-- C2: starting from the empty history, after `n` calls of `tipUpdate` the history
`blockProcessTime` has exactly `min n 5000` entries, and they are the `min n 5000`
most recently inserted samples, newest first: the sample of the last call is at
index 0. -/
theorem tipUpdates_history (env : Env) (s : Overlay) (calls : List TipCall)
    (hempty : s.blockProcessTime = []) :
    (tipUpdates env s calls).blockProcessTime
        = ((calls.map TipCall.sample).reverse).take (min calls.length 5000) ∧
      (tipUpdates env s calls).blockProcessTime.length = min calls.length 5000 ∧
      (tipUpdates env s calls).blockProcessTime.head? = (calls.map TipCall.sample).getLast? := by
  have h := tipUpdates_from_state env calls s (by simp [hempty])
  rw [hempty, List.append_nil, List.map_reverse] at h
  have hM : MAX_SAMPLES = 5000 := rfl
  rw [hM] at h
  have h1 : (tipUpdates env s calls).blockProcessTime
      = ((calls.map TipCall.sample).reverse).take (min calls.length 5000) := by
    rw [h]
    by_cases hn : calls.length ≤ 5000
    · rw [min_eq_left hn, List.take_of_length_le (by simp [hn]), List.take_of_length_le (by simp)]
    · rw [min_eq_right (le_of_lt (not_le.mp hn))]
  refine ⟨h1, ?_, ?_⟩
  · rw [h1, List.length_take]
    simp
  · rw [h]
    cases hc : calls.reverse with
    | nil =>
      have : calls = [] := by simpa using hc
      subst this
      simp
    | cons c cs =>
      have : calls = cs.reverse ++ [c] := by
        have := congrArg List.reverse hc
        simpa using this
      subst this
      simp

/-- C2 at 5001 calls: only 5000 samples are kept. -/
theorem tipUpdates_history_witness :
    (Overlay.init 0).blockProcessTime = [] ∧
      (tipUpdates ⟨fun _ _ => 0, 24⟩ (Overlay.init 0)
        (List.replicate 5001 ⟨0, 0, none, 0⟩)).blockProcessTime.length
          = min (List.replicate 5001 (⟨0, 0, none, 0⟩ : TipCall)).length 5000 :=
  ⟨rfl, (tipUpdates_history ⟨fun _ _ => 0, 24⟩ (Overlay.init 0)
    (List.replicate 5001 ⟨0, 0, none, 0⟩) rfl).2.1⟩

/-- The loop of `tipUpdate` started inside the history ends at its `break`. -/
theorem etaLoop_reference (now : Int) (bpt : List Sample) (rp : ℚ) :
    ∀ fuel i : Nat, i < bpt.length → bpt.length - i ≤ fuel →
      ∃ k sample, i ≤ k ∧ bpt[k]? = some sample ∧
        (∀ j sj, i ≤ j → j < k → bpt[j]? = some sj → ¬ sj.1 < now - 500 * 1000) ∧
        (sample.1 < now - 500 * 1000 ∨ k = bpt.length - 1) ∧
        etaLoop now bpt rp fuel i = etaBody bpt rp sample := by
  intro fuel
  induction fuel with
  | zero => intro i hi hf; omega
  | succ fuel ih =>
    intro i hi hf
    have hget : bpt[i]? = some (bpt.getD i (0, 0)) := by
      rw [List.getD_eq_getElem?_getD, List.getElem?_eq_getElem hi]
      rfl
    unfold etaLoop
    rw [if_pos hi]
    by_cases hc : (bpt.getD i (0, 0)).1 < now - 500 * 1000 ∨ i = bpt.length - 1
    · refine ⟨i, bpt.getD i (0, 0), le_refl i, hget, ?_, hc, ?_⟩
      · intro j sj h1 h2; omega
      · simp only [hc, if_true]
    · have hlast : i + 1 < bpt.length := by
        have : i ≠ bpt.length - 1 := fun h => hc (Or.inr h)
        omega
      obtain ⟨k, sample, hk, hs, hfirst, hsel, heq⟩ := ih (i + 1) hlast (by omega)
      refine ⟨k, sample, by omega, hs, ?_, hsel, ?_⟩
      · intro j sj h1 h2 hj
        by_cases hji : j = i
        · subst hji
          rw [hget] at hj
          cases hj
          exact fun h => hc (Or.inl h)
        · exact hfirst j sj (by omega) h2 hj
      · simp only [hc, if_false]
        exact heq

/-- With two or more samples the loop of `tipUpdate` ends at its `break`. -/
theorem etaVars_reference (now : Int) (bpt : List Sample) (p : ℚ) (h2 : 2 ≤ bpt.length) :
    ∃ k sample, 1 ≤ k ∧ bpt[k]? = some sample ∧
      (∀ j sj, 1 ≤ j → j < k → bpt[j]? = some sj → ¬ sj.1 < now - 500 * 1000) ∧
      (sample.1 < now - 500 * 1000 ∨ k = bpt.length - 1) ∧
      etaVars now bpt p = etaBody bpt (1 - p) sample :=
  etaLoop_reference now bpt (1 - p) bpt.length 1 (by omega) (by omega)

/-- A history of two or more samples after `tipUpdate` means the old one was not
empty. -/
theorem two_samples_after (env : Env) (now : Int) (s : Overlay) (count : Int)
    (blockDate : Option Int) (p : ℚ)
    (h2 : 2 ≤ (tipUpdate env now s count blockDate p).blockProcessTime.length) :
    2 ≤ ((now, p) :: s.blockProcessTime).length := by
  rw [tipUpdate_history] at h2
  rw [List.length_take] at h2
  exact le_trans h2 (min_le_right _ _)

/-- The label `expectedTimeLeft` after the whole of `tipUpdate`: the one written by
the speed block, or `Unknown…`. -/
theorem tipUpdate_expectedTimeLeft (env : Env) (now : Int) (s : Overlay) (count : Int)
    (blockDate : Option Int) (p : ℚ) :
    (tipUpdate env now s count blockDate p).expectedTimeLeft
        = (tipUpdateSamples s now p).expectedTimeLeft ∨
      (tipUpdate env now s count blockDate p).expectedTimeLeft = TimeLeftText.unknownEllipsis := by
  unfold tipUpdate
  simp only []
  split
  · exact Or.inl rfl
  · split
    · exact Or.inl rfl
    · exact Or.inr rfl

/-- The labels written by the speed block when there are two or more samples. -/
theorem tipUpdateSamples_labels (s : Overlay) (now : Int) (p : ℚ)
    (h2 : 2 ≤ ((now, p) :: s.blockProcessTime).length) :
    (tipUpdateSamples s now p).progressIncreasePerH
        = some ((etaVars now ((now, p) :: s.blockProcessTime) p).progressPerHour * 100) ∧
      (tipUpdateSamples s now p).expectedTimeLeft
        = if (etaVars now ((now, p) :: s.blockProcessTime) p).remainingMSecs ≥ 0 then
            TimeLeftText.niceTimeOffset
              (((etaVars now ((now, p) :: s.blockProcessTime) p).remainingMSecs : ℚ) / 1000)
          else TimeLeftText.unknown := by
  unfold tipUpdateSamples
  simp only []
  rw [if_pos h2]
  exact ⟨rfl, rfl⟩

/-- C4: when a `tipUpdate` call leaves two or more samples and `progressDelta` is
not positive, `progressPerHour` is 0, `remainingMSecs` is -1 and the speed block
writes the text "unknown" (at the end of the call the label is that text or
"Unknown…"); whatever `progressDelta` is, a duration shown as remaining time is
never negative. -/
theorem tipUpdate_unknown_eta (env : Env) (now : Int) (s : Overlay) (count : Int)
    (blockDate : Option Int) (p : ℚ)
    (h2 : 2 ≤ (tipUpdate env now s count blockDate p).blockProcessTime.length) :
    ((etaVars now ((now, p) :: s.blockProcessTime) p).progressDelta ≤ 0 →
      (etaVars now ((now, p) :: s.blockProcessTime) p).progressPerHour = 0 ∧
      (etaVars now ((now, p) :: s.blockProcessTime) p).remainingMSecs = -1 ∧
      (tipUpdateSamples s now p).progressIncreasePerH = some 0 ∧
      (tipUpdateSamples s now p).expectedTimeLeft = TimeLeftText.unknown ∧
      ((tipUpdate env now s count blockDate p).expectedTimeLeft = TimeLeftText.unknown ∨
        (tipUpdate env now s count blockDate p).expectedTimeLeft
          = TimeLeftText.unknownEllipsis)) ∧
    (∀ secs, (tipUpdateSamples s now p).expectedTimeLeft = TimeLeftText.niceTimeOffset secs →
      0 ≤ secs) ∧
    (∀ secs, (tipUpdate env now s count blockDate p).expectedTimeLeft
        = TimeLeftText.niceTimeOffset secs → 0 ≤ secs) := by
  have h2b := two_samples_after env now s count blockDate p h2
  obtain ⟨hl1, hl2⟩ := tipUpdateSamples_labels s now p h2b
  have hpos : ∀ secs, (tipUpdateSamples s now p).expectedTimeLeft
      = TimeLeftText.niceTimeOffset secs → 0 ≤ secs := by
    intro secs hs
    rw [hl2] at hs
    split at hs
    · next hge =>
      cases hs
      exact div_nonneg (by exact_mod_cast hge) (by norm_num)
    · cases hs
  refine ⟨fun hle => ?_, hpos, ?_⟩
  · obtain ⟨k, sample, _, _, _, _, heq⟩ :=
      etaVars_reference now ((now, p) :: s.blockProcessTime) p h2b
    have hnot : ¬ (etaBody ((now, p) :: s.blockProcessTime) (1 - p) sample).progressDelta > 0 := by
      rw [← heq]
      exact not_lt.mpr hle
    have hper : (etaVars now ((now, p) :: s.blockProcessTime) p).progressPerHour = 0 := by
      rw [heq]
      exact if_neg hnot
    have hrem : (etaVars now ((now, p) :: s.blockProcessTime) p).remainingMSecs = -1 := by
      rw [heq]
      exact if_neg hnot
    have hunk : (tipUpdateSamples s now p).expectedTimeLeft = TimeLeftText.unknown := by
      rw [hl2, hrem]
      rfl
    refine ⟨hper, hrem, ?_, hunk, ?_⟩
    · rw [hl1, hper, zero_mul]
    · rcases tipUpdate_expectedTimeLeft env now s count blockDate p with h | h
      · exact Or.inl (h.trans hunk)
      · exact Or.inr h
  · intro secs hs
    rcases tipUpdate_expectedTimeLeft env now s count blockDate p with h | h
    · exact hpos secs (h.symm.trans hs)
    · rw [h] at hs
      cases hs


/-- C4 at a progress that went down from 1/2 to 1/4: the remaining time is unknown. -/
theorem tipUpdate_unknown_eta_witness :
    2 ≤ (tipUpdate ⟨fun _ _ => 0, 24⟩ 1000
        { Overlay.init 0 with blockProcessTime := [(0, 1 / 2)] } 5 none
        (1 / 4)).blockProcessTime.length ∧
      (tipUpdateSamples { Overlay.init 0 with blockProcessTime := [(0, 1 / 2)] } 1000
        (1 / 4)).expectedTimeLeft = TimeLeftText.unknown :=
  have h2 : 2 ≤ (tipUpdate ⟨fun _ _ => 0, 24⟩ 1000
      { Overlay.init 0 with blockProcessTime := [(0, 1 / 2)] } 5 none
      (1 / 4)).blockProcessTime.length := by
    rw [tipUpdate_history, List.length_take]
    decide
  ⟨h2, ((tipUpdate_unknown_eta ⟨fun _ _ => 0, 24⟩ 1000
      { Overlay.init 0 with blockProcessTime := [(0, 1 / 2)] } 5 none (1 / 4) h2).1
      (by norm_num [etaVars, etaLoop, etaBody])).2.2.2.1⟩

/-- The leading-digit position found by `bitLen` brackets `n` between two powers of
two. -/
theorem bitLen_spec : ∀ fuel n : Nat, 1 ≤ n → n ≤ fuel →
    2 ^ bitLen fuel n ≤ n ∧ n < 2 ^ (bitLen fuel n + 1) := by
  intro fuel
  induction fuel with
  | zero => intro n h1 h2; omega
  | succ fuel ih =>
    intro n h1 h2
    unfold bitLen
    by_cases h : 2 ≤ n
    · rw [if_pos h]
      obtain ⟨ha, hb⟩ := ih (n / 2) (by omega) (by omega)
      rw [pow_succ] at hb
      rw [pow_succ, pow_succ, pow_succ]
      constructor <;> omega
    · rw [if_neg h]
      have : n = 1 := by omega
      subst this
      simp

/-- The exponent found by `binade` is the binade of a positive rational. -/
theorem binade_spec (a : ℚ) (ha : 0 < a) :
    (2 : ℚ) ^ binade a ≤ a ∧ a < (2 : ℚ) ^ (binade a + 1) := by
  unfold binade
  simp only []
  have hnum : 0 < a.num := Rat.num_pos.mpr ha
  have hn1 : 1 ≤ a.num.natAbs := by omega
  have hd1 : 1 ≤ a.den := a.den_pos
  obtain ⟨hn_lo, hn_hi⟩ := bitLen_spec a.num.natAbs a.num.natAbs hn1 (le_refl _)
  obtain ⟨hd_lo, hd_hi⟩ := bitLen_spec a.den a.den hd1 (le_refl _)
  generalize bitLen a.num.natAbs a.num.natAbs = bn at hn_lo hn_hi
  generalize bitLen a.den a.den = bd at hd_lo hd_hi
  have hdq : (0 : ℚ) < a.den := by exact_mod_cast hd1
  have hnq : (a.num.natAbs : ℚ) = a * a.den := by
    have h0 : (a.num.natAbs : Int) = a.num := Int.natAbs_of_nonneg (le_of_lt hnum)
    have h1 : ((a.num.natAbs : Int) : ℚ) = a.num := by rw [h0]
    have h2 : (a.num : ℚ) = a * a.den := by
      rw [mul_comm]; exact (Rat.den_mul_eq_num a).symm
    rw [← h2, ← h1, Int.cast_natCast]
  have hn_lo' : (2 : ℚ) ^ (bn : Int) ≤ a * a.den := by
    rw [← hnq, zpow_natCast]; exact_mod_cast hn_lo
  have hn_hi' : a * a.den < (2 : ℚ) ^ ((bn : Int) + 1) := by
    rw [← hnq, ← Nat.cast_succ, zpow_natCast]; exact_mod_cast hn_hi
  have hd_lo' : (2 : ℚ) ^ (bd : Int) ≤ a.den := by
    rw [zpow_natCast]; exact_mod_cast hd_lo
  have hd_hi' : (a.den : ℚ) < (2 : ℚ) ^ ((bd : Int) + 1) := by
    rw [← Nat.cast_succ, zpow_natCast]; exact_mod_cast hd_hi
  have h2 : (2 : ℚ) ≠ 0 := by norm_num
  have hpos : ∀ z : Int, (0 : ℚ) < (2 : ℚ) ^ z := fun z => zpow_pos (by norm_num) z
  by_cases hk : (2 : ℚ) ^ ((bn : Int) - (bd : Int)) ≤ a
  · rw [if_pos hk]
    refine ⟨hk, ?_⟩
    have e1 : (2 : ℚ) ^ ((bn : Int) - bd + 1) * (2 : ℚ) ^ (bd : Int) = (2 : ℚ) ^ ((bn : Int) + 1) := by
      rw [← zpow_add₀ h2]; congr 1; ring
    by_contra hge
    have hge' : (2 : ℚ) ^ ((bn : Int) - bd + 1) ≤ a := not_lt.mp hge
    have : (2 : ℚ) ^ ((bn : Int) + 1) ≤ a * a.den := by
      rw [← e1]
      exact mul_le_mul hge' hd_lo' (le_of_lt (hpos _)) (le_of_lt ha)
    linarith
  · rw [if_neg hk]
    have hlt : a < (2 : ℚ) ^ ((bn : Int) - (bd : Int)) := not_le.mp hk
    refine ⟨?_, by simpa using hlt⟩
    have e1 : (2 : ℚ) ^ ((bn : Int) - bd - 1) * (2 : ℚ) ^ ((bd : Int) + 1) = (2 : ℚ) ^ (bn : Int) := by
      rw [← zpow_add₀ h2]; congr 1; ring
    by_contra hlt2
    have hlt2' : a < (2 : ℚ) ^ ((bn : Int) - bd - 1) := not_le.mp hlt2
    have : a * a.den < (2 : ℚ) ^ (bn : Int) := by
      rw [← e1]
      exact mul_lt_mul'' hlt2' hd_hi' (le_of_lt ha) (le_of_lt hdq)
    linarith

/-- The integer chosen by `roundHalfEven` is within one half of its argument. -/
theorem roundHalfEven_near (x : ℚ) : |(roundHalfEven x : ℚ) - x| ≤ 1 / 2 := by
  have h1 := Int.floor_le x
  have h2 := Int.lt_floor_add_one x
  unfold roundHalfEven
  simp only []
  rw [abs_le]
  split_ifs <;> push_cast <;> constructor <;> linarith

/-- A finite result of `Double.round` is within half a unit in the last place of
the exact value. -/
theorem round_error (q v : ℚ) (h : Double.round q = Double.finite v) :
    |v - q| ≤ (2 : ℚ) ^ (max (binade |q|) (-1022) - 52) / 2 := by
  have hu : (0 : ℚ) < (2 : ℚ) ^ (max (binade |q|) (-1022) - 52) := zpow_pos (by norm_num) _
  unfold Double.round at h
  by_cases hq : q = 0
  · rw [if_pos hq] at h
    cases h
    subst hq
    simp only [sub_zero, abs_zero]
    positivity
  · rw [if_neg hq] at h
    simp only [] at h
    generalize (2 : ℚ) ^ (max (binade |q|) (-1022) - 52) = u at h hu ⊢
    have hnear := roundHalfEven_near (|q| / u)
    have hmul : abs ((roundHalfEven (|q| / u) : ℚ) * u - |q|) ≤ u / 2 := by
      have e : (roundHalfEven (|q| / u) : ℚ) * u - |q|
          = ((roundHalfEven (|q| / u) : ℚ) - |q| / u) * u := by
        field_simp
      rw [e, abs_mul, abs_of_pos hu]
      calc abs ((roundHalfEven (|q| / u) : ℚ) - |q| / u) * u ≤ 1 / 2 * u :=
            mul_le_mul_of_nonneg_right hnear (le_of_lt hu)
        _ = u / 2 := by ring
    split at h
    · cases h
    · cases h
      by_cases hneg : q < 0
      · rw [if_pos hneg]
        rw [abs_of_neg hneg] at hmul ⊢
        rw [abs_le] at hmul ⊢
        constructor <;> linarith [hmul.1, hmul.2]
      · rw [if_neg hneg]
        rw [abs_of_nonneg (not_lt.mp hneg)] at hmul ⊢
        exact hmul

/-- A finite result of `Double.round` lies on the grid of its binade: it is a whole
multiple of the unit in the last place. -/
theorem round_grid (q v : ℚ) (h : Double.round q = Double.finite v) :
    ∃ m : Int, v = (m : ℚ) * (2 : ℚ) ^ (max (binade |q|) (-1022) - 52) := by
  unfold Double.round at h
  by_cases hq : q = 0
  · rw [if_pos hq] at h
    cases h
    exact ⟨0, by simp⟩
  · rw [if_neg hq] at h
    simp only [] at h
    split at h
    · cases h
    · cases h
      by_cases hneg : q < 0
      · rw [if_pos hneg]
        exact ⟨-roundHalfEven (|q| / (2 : ℚ) ^ (max (binade |q|) (-1022) - 52)), by
          push_cast; ring⟩
      · rw [if_neg hneg]
        exact ⟨roundHalfEven (|q| / (2 : ℚ) ^ (max (binade |q|) (-1022) - 52)), rfl⟩

/-- The machine-arithmetic loop of `tipUpdate`, started inside the history with a
threshold that fits in 64 bits, ends at its `break`. -/
theorem etaLoopD_reference (now : Int) (bpt : List SampleD) (rp : Double) (newest : SampleD)
    (hnew : bpt[0]? = some newest)
    (hthr : checked64 (now - 500 * 1000) = some (now - 500 * 1000)) :
    ∀ fuel i : Nat, i < bpt.length → bpt.length - i ≤ fuel →
      ∃ (k : Nat) (sample : SampleD), i ≤ k ∧ bpt[k]? = some sample ∧
        (∀ (j : Nat) (sj : SampleD), i ≤ j → j < k → bpt[j]? = some sj →
          ¬ sj.1 < now - 500 * 1000) ∧
        (sample.1 < now - 500 * 1000 ∨ k = bpt.length - 1) ∧
        etaLoopD now bpt rp fuel i = etaBodyD newest rp sample := by
  intro fuel
  induction fuel with
  | zero => intro i hi hf; omega
  | succ fuel ih =>
    intro i hi hf
    obtain ⟨si, hsi⟩ : ∃ si, bpt[i]? = some si := ⟨bpt[i], List.getElem?_eq_getElem hi⟩
    unfold etaLoopD
    rw [if_pos hi]
    simp only [hsi, hnew, hthr]
    by_cases hc : si.1 < now - 500 * 1000 ∨ i = bpt.length - 1
    · refine ⟨i, si, le_refl i, hsi, ?_, hc, ?_⟩
      · intro j sj h1 h2; omega
      · rw [if_pos hc]
    · have hlast : i + 1 < bpt.length := by
        have : i ≠ bpt.length - 1 := fun h => hc (Or.inr h)
        omega
      obtain ⟨k, sample, hk, hs, hfirst, hsel, heq⟩ := ih (i + 1) hlast (by omega)
      refine ⟨k, sample, by omega, hs, ?_, hsel, ?_⟩
      · intro j sj h1 h2 hj
        by_cases hji : j = i
        · subst hji
          rw [hsi] at hj
          cases hj
          exact fun h => hc (Or.inl h)
        · exact hfirst j sj (by omega) h2 hj
      · rw [if_neg hc]
        exact heq

/-- A value within the 64-bit range passes the range check. -/
theorem checked64_of_fits (x : Int) (h1 : -2 ^ 63 ≤ x) (h2 : x < 2 ^ 63) :
    checked64 x = some x := by
  unfold checked64
  rw [if_pos ⟨h1, h2⟩]

/-- C9, amended: in binary64 arithmetic, for time stamps whose differences fit in 64
bits. When the history after the push has two or more samples, the reference
sample is the first one at an index `k ≥ 1` whose time stamp is more than 500
seconds before `now`, or the oldest sample when there is none; `progressDelta`
is the rounded difference of the newest and the reference progress, `timeDelta`
the difference of their time stamps; and when `progressDelta > 0`,
`progressPerHour` is `progressDelta / timeDelta * 1000 * 3600` with every
operation rounded to the nearest double (an infinity when `timeDelta = 0`), and
`remainingMSecs` is the double `(1 - verificationProgress) / progressDelta *
timeDelta`, every operation rounded, then truncated toward zero, provided the
truncated value fits in 64 bits. -/
theorem tipUpdate_eta_machine (now : Int) (p : Double) (history : List SampleD)
    (h2 : 2 ≤ ((now, p) :: history).length)
    (hlow : -2 ^ 63 ≤ now - 500 * 1000) (hhigh : now < 2 ^ 63)
    (hdiff : ∀ s ∈ history, -2 ^ 63 ≤ now - s.1 ∧ now - s.1 < 2 ^ 63) :
    ∃ (k : Nat) (sample : SampleD), 1 ≤ k ∧ ((now, p) :: history)[k]? = some sample ∧
      (∀ (j : Nat) (sj : SampleD), 1 ≤ j → j < k → ((now, p) :: history)[j]? = some sj →
        ¬ sj.1 < now - 500 * 1000) ∧
      (sample.1 < now - 500 * 1000 ∨ k = ((now, p) :: history).length - 1) ∧
      (Double.isPos (Double.sub p sample.2) = true →
        ∀ r : Int,
          Double.toInt64 (Double.mul
            (Double.div (Double.sub (Double.ofInt 1) p) (Double.sub p sample.2))
            (Double.ofInt (now - sample.1))) = some r →
          etaVarsD now ((now, p) :: history) p = some
            { progressDelta := Double.sub p sample.2
              timeDelta := now - sample.1
              progressPerHour :=
                Double.mul (Double.mul
                  (Double.div (Double.sub p sample.2) (Double.ofInt (now - sample.1)))
                  (Double.ofInt 1000)) (Double.ofInt 3600)
              remainingMSecs := r }) ∧
      (Double.isPos (Double.sub p sample.2) = true →
        Double.toInt64 (Double.mul
          (Double.div (Double.sub (Double.ofInt 1) p) (Double.sub p sample.2))
          (Double.ofInt (now - sample.1))) = none →
        etaVarsD now ((now, p) :: history) p = none) := by
  have hthr : checked64 (now - 500 * 1000) = some (now - 500 * 1000) :=
    checked64_of_fits _ hlow (by omega)
  obtain ⟨k, sample, hk, hs, hfirst, hsel, heq⟩ :=
    etaLoopD_reference now ((now, p) :: history) (Double.sub (Double.ofInt 1) p) (now, p)
      List.getElem?_cons_zero
      hthr ((now, p) :: history).length 1 (by omega) (by omega)
  have hmem : sample ∈ history := by
    obtain ⟨k1, rfl⟩ : ∃ k1, k = k1 + 1 := ⟨k - 1, by omega⟩
    rw [List.getElem?_cons_succ] at hs
    exact List.getElem?_mem hs
  have htd : checked64 (now - sample.1) = some (now - sample.1) :=
    checked64_of_fits _ (hdiff sample hmem).1 (hdiff sample hmem).2
  refine ⟨k, sample, hk, hs, hfirst, hsel, fun hpos r hr => ?_, fun hpos hr => ?_⟩
  · unfold etaVarsD
    rw [heq]
    unfold etaBodyD
    simp only [htd, hpos, if_true, hr]
  · unfold etaVarsD
    rw [heq]
    unfold etaBodyD
    simp only [htd, hpos, if_true, hr]

/-- C9 fails as stated. From the sample (t = 0, p = 0) a call at t = 60000 ms with
progress 0.1875 stores `remainingMSecs = 259999`, while `(1 − 0.1875) / 0.1875 ×
60000` is 260000; and a call at t = 1000 ms with progress 0.3 (the nearest
double) stores 2333, while the formula on the same values is not a whole number. -/
theorem remainingMSecs_not_formula :
    etaVarsD 60000 [(60000, Double.finite (3 / 16)), (0, Double.finite 0)]
        (Double.finite (3 / 16))
      = some ⟨Double.finite (3 / 16), Double.finite (45 / 4), 60000, 259999⟩ ∧
    ((1 : ℚ) - 3 / 16) / (3 / 16 - 0) * 60000 = 260000 ∧
    etaVarsD 1000 [(1000, Double.round (3 / 10)), (0, Double.finite 0)] (Double.round (3 / 10))
      = some ⟨Double.finite (5404319552844595 / 18014398509481984), Double.finite 1080, 1000,
          2333⟩ ∧
    ((1 : ℚ) - 5404319552844595 / 18014398509481984)
        / (5404319552844595 / 18014398509481984 - 0) * 1000 ≠ 2333 := by
  refine ⟨by decide!, by norm_num, by decide!, by norm_num⟩

/-- C9, amended, at the samples (t = 0, p = 0.10) and (t = 600000 ms, p = 0.20), both
the nearest doubles: `progressDelta` is the double 0.1, `progressPerHour` is the
double 0.6000000000000001 and `remainingMSecs` is 4800000. -/
theorem tipUpdate_eta_machine_witness :
    (2 ≤ ((600000, Double.round (1 / 5)) :: [((0 : Int), Double.round (1 / 10))]).length ∧
      (-2 ^ 63 ≤ (600000 : Int) - 500 * 1000 ∧ (600000 : Int) < 2 ^ 63)) ∧
    etaVarsD 600000 ((600000, Double.round (1 / 5)) :: [(0, Double.round (1 / 10))])
        (Double.round (1 / 5))
      = some ⟨Double.round (1 / 10),
          Double.finite (1351079888211149 / 2251799813685248), 600000, 4800000⟩ := by
  have h2 : 2 ≤ ((600000, Double.round (1 / 5))
      :: [((0 : Int), Double.round (1 / 10))]).length := by decide
  have hlow : -2 ^ 63 ≤ (600000 : Int) - 500 * 1000 := by decide
  have hhigh : (600000 : Int) < 2 ^ 63 := by decide
  obtain ⟨k, sample, hk, hs, _, _, hform, _⟩ :=
    tipUpdate_eta_machine 600000 (Double.round (1 / 5)) [(0, Double.round (1 / 10))] h2 hlow
      hhigh (by
        intro s hs
        rw [List.mem_singleton] at hs
        subst hs
        decide)
  have hk1 : k = 1 := by
    have hlt := (List.getElem?_eq_some_iff.mp hs).1
    simp only [List.length_cons, List.length_nil] at hlt
    omega
  subst hk1
  have hsample : sample = (0, Double.round (1 / 10)) := by
    simpa using hs.symm
  subst hsample
  refine ⟨⟨h2, hlow, hhigh⟩, ?_⟩
  rw [hform (by decide!) 4800000 (by decide!)]
  decide!

end ModalOverlay

/-! ## Theorems: the payment-request dialog -/

namespace ReceiveRequestDialog

/-- A loop that ends without `break` has seen no default entry below its start. -/
theorem defaultEntryLoop_none (rows : List SendCoinsRecipient) :
    ∀ n, defaultEntryLoop rows n = none →
      ∀ j e, j < n → rows[j]? = some e → isDefaultEntry e = false := by
  intro n
  induction n with
  | zero => intro _ j e hj; omega
  | succ n ih =>
    intro h j e hj he
    unfold defaultEntryLoop at h
    split at h
    · next entry hentry =>
      split at h
      · cases h
      · next hnot =>
        by_cases hjn : j = n
        · subst hjn
          rw [hentry] at he
          cases he
          simpa using hnot
        · exact ih h j e (by omega) he
    · next hnone =>
      by_cases hjn : j = n
      · subst hjn
        rw [hnone] at he
        cases he
      · exact ih h j e (by omega) he

/-- A loop that ends at its `break` stops at the default entry of greatest row
below its start. -/
theorem defaultEntryLoop_some (rows : List SendCoinsRecipient) :
    ∀ n i entry, defaultEntryLoop rows n = some (i, entry) →
      i < n ∧ rows[i]? = some entry ∧ isDefaultEntry entry = true ∧
      ∀ j e, i < j → j < n → rows[j]? = some e → isDefaultEntry e = false := by
  intro n
  induction n with
  | zero => intro i entry h; simp [defaultEntryLoop] at h
  | succ n ih =>
    intro i entry h
    unfold defaultEntryLoop at h
    split at h
    · next e0 he0 =>
      split at h
      · next hdef =>
        cases h
        exact ⟨by omega, he0, hdef, fun j e h1 h2 _ => by omega⟩
      · next hnot =>
        obtain ⟨h1, h2, h3, h4⟩ := ih i entry h
        refine ⟨by omega, h2, h3, fun j e hij hj he => ?_⟩
        by_cases hjn : j = n
        · subst hjn
          rw [he0] at he
          cases he
          simpa using hnot
        · exact h4 j e hij (by omega) he
    · next hnone =>
      obtain ⟨h1, h2, h3, h4⟩ := ih i entry h
      refine ⟨by omega, h2, h3, fun j e hij hj he => ?_⟩
      by_cases hjn : j = n
      · subst hjn
        rw [hnone] at he
        cases he
      · exact h4 j e hij (by omega) he

/-- C1 fails as stated: for the history `[A-labelled, default, default]` (row 0
first) `getDefaultAddress` stops at row 2 and adopts the third entry, not the
second. -/
theorem getDefaultAddress_adopts_third :
    defaultEntryLoop
        [⟨"addr1", "A", 0, ""⟩, ⟨"addr2", "", 0, ""⟩, ⟨"addr3", "", 0, ""⟩] 3
        = some (2, ⟨"addr3", "", 0, ""⟩) ∧
      (getDefaultAddress (⟨fun t _ _ => ("fresh", t + 1), fun h r => r :: h, fun _ => "", true⟩ : Env Nat)
        ⟨some ⟨some 0, some [⟨"addr1", "A", 0, ""⟩, ⟨"addr2", "", 0, ""⟩, ⟨"addr3", "", 0, ""⟩], 0⟩,
          SendCoinsRecipient.empty, "", none, false, "", "", ""⟩).2.info
        = ⟨"addr3", "", 0, ""⟩ ∧
      (getDefaultAddress (⟨fun t _ _ => ("fresh", t + 1), fun h r => r :: h, fun _ => "", true⟩ : Env Nat)
        ⟨some ⟨some 0, some [⟨"addr1", "A", 0, ""⟩, ⟨"addr2", "", 0, ""⟩, ⟨"addr3", "", 0, ""⟩], 0⟩,
          SendCoinsRecipient.empty, "", none, false, "", "", ""⟩).2.info
        ≠ ⟨"addr2", "", 0, ""⟩ := by
  refine ⟨by decide, by decide, by decide⟩

/-- C1, amended: when the bound request history has an entry with empty label,
empty message and zero amount, `getDefaultAddress` adopts as the current request
the matching entry of greatest row index (the one closest to the back of the
list, which is the oldest one when row 0 is the newest), and changes nothing
else. -/
theorem getDefaultAddress_adopts_last {A : Type} (env : Env A) (s : Dialog A)
    (m : WalletModel A) (rows : List SendCoinsRecipient)
    (hm : s.model = some m) (hr : m.recentRequestsTableModel = some rows)
    (hex : ∃ e, e ∈ rows ∧ isDefaultEntry e = true) :
    ∃ (i : Nat) (entry : SendCoinsRecipient), rows[i]? = some entry ∧
      isDefaultEntry entry = true ∧
      (∀ (j : Nat) (e : SendCoinsRecipient), i < j → rows[j]? = some e →
        isDefaultEntry e = false) ∧
      (getDefaultAddress env s).2 = { s with info := entry } := by
  cases hloop : defaultEntryLoop rows rows.length with
  | none =>
    obtain ⟨e, hmem, hdef⟩ := hex
    obtain ⟨j, hj, hje⟩ := List.getElem_of_mem hmem
    have hget : rows[j]? = some e := by
      rw [List.getElem?_eq_getElem hj, hje]
    have := defaultEntryLoop_none rows rows.length hloop j e hj hget
    rw [hdef] at this
    cases this
  | some found =>
    obtain ⟨i, entry⟩ := found
    obtain ⟨_, h2, h3, h4⟩ := defaultEntryLoop_some rows rows.length i entry hloop
    refine ⟨i, entry, h2, h3, fun j e hij he => ?_, ?_⟩
    · exact h4 j e hij (List.getElem?_eq_some_iff.mp he).1 he
    · unfold getDefaultAddress
      simp only [hm, hr, hloop]

/-- C1, amended, at the history `[A-labelled, default, default]`. -/
theorem getDefaultAddress_adopts_last_witness :
    ∃ (i : Nat) (entry : SendCoinsRecipient),
      [(⟨"addr1", "A", 0, ""⟩ : SendCoinsRecipient), ⟨"addr2", "", 0, ""⟩,
        ⟨"addr3", "", 0, ""⟩][i]? = some entry ∧
      isDefaultEntry entry = true ∧
      (∀ (j : Nat) (e : SendCoinsRecipient), i < j →
        [(⟨"addr1", "A", 0, ""⟩ : SendCoinsRecipient), ⟨"addr2", "", 0, ""⟩,
          ⟨"addr3", "", 0, ""⟩][j]? = some e → isDefaultEntry e = false) ∧
      (getDefaultAddress (⟨fun t _ _ => ("fresh", t + 1), fun h r => r :: h, fun _ => "", true⟩ : Env Nat)
        ⟨some ⟨some 0, some [⟨"addr1", "A", 0, ""⟩, ⟨"addr2", "", 0, ""⟩, ⟨"addr3", "", 0, ""⟩], 0⟩,
          SendCoinsRecipient.empty, "", none, false, "", "", ""⟩).2
        = { (⟨some ⟨some 0, some [⟨"addr1", "A", 0, ""⟩, ⟨"addr2", "", 0, ""⟩,
                ⟨"addr3", "", 0, ""⟩], 0⟩,
              SendCoinsRecipient.empty, "", none, false, "", "", ""⟩ : Dialog Nat)
            with info := entry } :=
  getDefaultAddress_adopts_last _ _ _ _ rfl rfl
    ⟨⟨"addr2", "", 0, ""⟩, by decide, by decide⟩

/-- C6: `refreshAddress` returns false exactly when the wallet model, the address
table model or the recent-requests model is not bound, and then the current
request and the request history (the whole state) are unchanged; with all three
bound it returns true. -/
theorem refreshAddress_false_iff {A : Type} (env : Env A) (s : Dialog A) :
    ((refreshAddress env s).1 = false ↔
      (s.model = none ∨ ∃ m, s.model = some m ∧
        (m.addressTableModel = none ∨ m.recentRequestsTableModel = none))) ∧
    ((refreshAddress env s).1 = false → (refreshAddress env s).2 = s) ∧
    (∀ m table requests, s.model = some m → m.addressTableModel = some table →
      m.recentRequestsTableModel = some requests → (refreshAddress env s).1 = true) := by
  rcases s with ⟨model, info, t, q, w, a, u, tt⟩
  cases model with
  | none => simp [refreshAddress]
  | some m =>
    rcases m with ⟨atm, rrtm, dt⟩
    cases atm <;> cases rrtm <;> simp [refreshAddress] <;> rintro m table requests rfl <;> simp

/-- C6 at a dialog without wallet model and at one with all collaborators bound. -/
theorem refreshAddress_false_iff_witness :
    (refreshAddress (⟨fun t _ _ => ("fresh", t + 1), fun h r => r :: h, fun _ => "", true⟩ : Env Nat)
        ⟨none, ⟨"addr", "L", 5, "msg"⟩, "", none, false, "", "", ""⟩).2
      = ⟨none, ⟨"addr", "L", 5, "msg"⟩, "", none, false, "", "", ""⟩ ∧
    (refreshAddress (⟨fun t _ _ => ("fresh", t + 1), fun h r => r :: h, fun _ => "", true⟩ : Env Nat)
        ⟨some ⟨some 0, some [], 0⟩, ⟨"addr", "L", 5, "msg"⟩, "", none, false, "", "", ""⟩).1
      = true :=
  ⟨(refreshAddress_false_iff _ _).2.1 rfl,
    (refreshAddress_false_iff _ _).2.2 ⟨some 0, some [], 0⟩ 0 [] rfl rfl rfl⟩

/-- C7: with a wallet model and a request history bound, `getDefaultAddress` returns
true if and only if the address of the current request is not empty after the
call, whether the request came from the history or from `refreshAddress` on the
empty request. -/
theorem getDefaultAddress_true_iff {A : Type} (env : Env A) (s : Dialog A)
    (m : WalletModel A) (rows : List SendCoinsRecipient)
    (hm : s.model = some m) (hr : m.recentRequestsTableModel = some rows) :
    ((getDefaultAddress env s).1 = true ↔ (getDefaultAddress env s).2.info.address ≠ "") ∧
    ((∃ found, defaultEntryLoop rows rows.length = some found ∧
        (getDefaultAddress env s).2 = { s with info := found.2 }) ∨
      (defaultEntryLoop rows rows.length = none ∧
        (getDefaultAddress env s).2
          = (refreshAddress env { s with info := SendCoinsRecipient.empty }).2)) := by
  unfold getDefaultAddress
  simp only [hm, hr]
  cases hloop : defaultEntryLoop rows rows.length with
  | none => simp
  | some found => simp

/-- C7 at a history holding one default entry with an address. -/
theorem getDefaultAddress_true_iff_witness :
    (getDefaultAddress (⟨fun t _ _ => ("fresh", t + 1), fun h r => r :: h, fun _ => "", true⟩ : Env Nat)
        ⟨some ⟨some 0, some [⟨"addr1", "", 0, ""⟩], 0⟩,
          SendCoinsRecipient.empty, "", none, false, "", "", ""⟩).1 = true ↔
      (getDefaultAddress (⟨fun t _ _ => ("fresh", t + 1), fun h r => r :: h, fun _ => "", true⟩ : Env Nat)
        ⟨some ⟨some 0, some [⟨"addr1", "", 0, ""⟩], 0⟩,
          SendCoinsRecipient.empty, "", none, false, "", "", ""⟩).2.info.address ≠ "" :=
  (getDefaultAddress_true_iff _ _ ⟨some 0, some [⟨"addr1", "", 0, ""⟩], 0⟩
    [⟨"addr1", "", 0, ""⟩] rfl rfl).1

/-- A true result of `getDefaultAddress` comes with a non-empty address. -/
theorem getDefaultAddress_true_address {A : Type} (env : Env A) (s : Dialog A)
    (h : (getDefaultAddress env s).1 = true) :
    (getDefaultAddress env s).2.info.address ≠ "" := by
  unfold getDefaultAddress at h ⊢
  split at h
  · cases h
  · split at h
    · cases h
    · split at h
      · simpa using h
      · simpa using h

/-- With a non-empty address `update` returns without calling `clear`. -/
theorem update_nonempty {A : Type} (env : Env A) (s : Dialog A) (depth : Nat)
    (h : s.info.address ≠ "") :
    ∃ s1, update env (depth + 1) s = some s1 ∧ update env 1 s = some s1 := by
  unfold update
  simp only [h, ne_eq, not_false_eq_true, if_true]
  exact ⟨_, rfl, rfl⟩

/-- The function `clear` returns within two nested calls. -/
theorem clear_returns {A : Type} (env : Env A) (s : Dialog A) (depth : Nat) :
    ∃ s1, clear env (depth + 2) s = some s1 ∧ clear env 2 s = some s1 := by
  unfold clear
  by_cases h : (getDefaultAddress env s).1 = true
  · simp only [h, if_true]
    exact update_nonempty env _ depth (getDefaultAddress_true_address env s h)
  · simp only [h]
    exact ⟨_, rfl, rfl⟩

/-- C10: the mutual recursion of `update` and `clear` terminates for every state and
every behaviour of the collaborators: `update` returns within three nested calls
(update → clear → update) and `clear` within two, a larger bound gives the same
result; `update` enters `clear` only with an empty address, and `clear` enters
`update` only after `getDefaultAddress` returned true, which makes the address
non-empty, so that this `update` returns without calling `clear`. -/
theorem update_clear_terminate {A : Type} (env : Env A) (s : Dialog A) (depth : Nat) :
    (∃ s1, update env (depth + 3) s = some s1 ∧ update env 3 s = some s1) ∧
    (∃ s1, clear env (depth + 2) s = some s1 ∧ clear env 2 s = some s1) ∧
    (s.info.address ≠ "" → ∃ s1, update env (depth + 1) s = some s1) ∧
    ((getDefaultAddress env s).1 = true →
      (getDefaultAddress env s).2.info.address ≠ "" ∧
      ∃ s1, update env (depth + 1) (getDefaultAddress env s).2 = some s1 ∧
        clear env (depth + 2) s = some s1) := by
  refine ⟨?_, clear_returns env s depth, fun h => ?_, fun h => ?_⟩
  · by_cases h : s.info.address ≠ ""
    · obtain ⟨s1, h1, h2⟩ := update_nonempty env s (depth + 2) h
      obtain ⟨s2, h3, h4⟩ := update_nonempty env s 2 h
      refine ⟨s1, h1, ?_⟩
      rw [h4] at h2
      rw [h3, h2]
    · unfold update
      simp only [h, if_false]
      exact clear_returns env _ depth
  · obtain ⟨s1, h1, _⟩ := update_nonempty env s depth h
    exact ⟨s1, h1⟩
  · have ha := getDefaultAddress_true_address env s h
    obtain ⟨s1, h1, _⟩ := update_nonempty env _ depth ha
    refine ⟨ha, s1, h1, ?_⟩
    rw [← h1]
    conv_lhs => unfold clear
    simp only [h, if_true]

/-- C10 at a dialog with an address and at the result of a successful
`getDefaultAddress`. -/
theorem update_clear_terminate_witness :
    (∃ s1, update (⟨fun t _ _ => ("fresh", t + 1), fun h r => r :: h, fun _ => "", true⟩ : Env Nat) 1
        ⟨none, ⟨"addr", "L", 5, "msg"⟩, "", none, false, "", "", ""⟩ = some s1) ∧
      (getDefaultAddress (⟨fun t _ _ => ("fresh", t + 1), fun h r => r :: h, fun _ => "", true⟩ : Env Nat)
        ⟨some ⟨some 0, some [], 0⟩, SendCoinsRecipient.empty, "", none, false, "", "",
          ""⟩).2.info.address ≠ "" :=
  ⟨(update_clear_terminate _ _ 0).2.2.1 (by decide),
    ((update_clear_terminate _
      ⟨some ⟨some 0, some [], 0⟩, SendCoinsRecipient.empty, "", none, false, "", "", ""⟩
      0).2.2.2 (by decide)).1⟩

end ReceiveRequestDialog
